import Mathlib

/-!
Shallow embedding of `src/prometheus-grafana-demo/app.py`: a Flask app with
three handlers (`index` on `/`, `healthz` on `/healthz`, `metrics` on
`/metrics`) and a process-wide prometheus registry holding a labeled counter
`sample_app_request_total` and an unlabeled histogram
`sample_app_request_latency_seconds`.

Durations are modeled as rationals (seconds).  The prometheus_client library
semantics used by the app (Counter.labels(...).inc(), Histogram.observe,
generate_latest) is embedded following the library's documented behavior:
a labeled counter lazily creates a child per label combination and adds 1 on
inc; a histogram stores one (non-cumulative) cell per finite upper bound plus
an implicit +Inf cell, `observe` bumps the first cell whose bound is >= the
sample and adds the sample to the running sum; exposition renders cumulative
bucket values.
-/

namespace PromDemo

/-- Label key of the request counter: (endpoint, method, http_status).
The app passes http_status as the integer 200; prometheus stringifies label
values at exposition time, which `counterLines` below reproduces. -/
abbrev CKey := String × String × Nat

/-- The single label combination used by the app
(`endpoint="/", method="GET", http_status=200`, app.py line 26). -/
def mainKey : CKey := ("/", "GET", 200)

/-- Histogram bucket upper bounds from app.py line 16 (seconds):
`(0.005, 0.01, 0.025, 0.05, 0.1, 0.25, 0.5, 1, 2, 5)`. -/
def upperBounds : List ℚ :=
  [5/1000, 1/100, 25/1000, 5/100, 1/10, 25/100, 5/10, 1, 2, 5]

/-- Counter child table: label combination to accumulated value, children
created lazily on first observation (prometheus_client labels()). -/
abbrev CounterState := List (CKey × Nat)

/-- Value of a counter child; 0 when the label combination has no child. -/
def counterValue : CounterState → CKey → Nat
  | [], _ => 0
  | (k0, v) :: rest, k => if k0 = k then v else counterValue rest k

/-- Add 1 to the child for label combination `k`, creating it at 1 when
absent (`Counter.labels(...).inc()`). -/
def incKey : CounterState → CKey → CounterState
  | [], k => [(k, 1)]
  | (k0, v) :: rest, k =>
    if k0 = k then (k0, v + 1) :: rest else (k0, v) :: incKey rest k

/-- Sum of the counter over all label combinations. -/
def counterTotal (c : CounterState) : Nat := (c.map Prod.snd).sum

/-- Histogram state: one (bound, cell-count) pair per finite upper bound,
stored non-cumulatively as in prometheus_client; `inf` is the implicit +Inf
cell; `sum` is the running sum of observed samples. -/
structure Hist where
  buckets : List (ℚ × Nat)
  inf : Nat
  sum : ℚ
deriving DecidableEq

/-- Bump the first cell whose bound is at least the sample; the Bool reports
whether some finite bucket matched. -/
def bump : List (ℚ × Nat) → ℚ → List (ℚ × Nat) × Bool
  | [], _ => ([], false)
  | (b0, c) :: rest, l =>
    if l ≤ b0 then ((b0, c + 1) :: rest, true)
    else ((b0, c) :: (bump rest l).1, (bump rest l).2)

/-- Histogram.observe: add the sample to the sum and bump the first bucket
whose upper bound is at least the sample (falling through to +Inf). -/
def observe (h : Hist) (l : ℚ) : Hist :=
  { buckets := (bump h.buckets l).1
    inf := h.inf + (if (bump h.buckets l).2 then 0 else 1)
    sum := h.sum + l }

/-- Total number of samples recorded in the histogram (the exposed _count:
every finite cell plus the +Inf cell). -/
def histTotalCount (h : Hist) : Nat := (h.buckets.map Prod.snd).sum + h.inf

/-- Cumulative count exposed for the bucket with upper bound `b`: samples
that landed in any cell whose bound is at most `b`. -/
def cumAt (bs : List (ℚ × Nat)) (b : ℚ) : Nat :=
  ((bs.filter (fun p => decide (p.1 ≤ b))).map Prod.snd).sum

/-- List of the finite bucket bounds of a histogram state. -/
def bucketBounds (h : Hist) : List ℚ := h.buckets.map Prod.fst

/-- Process-wide registry state: the two custom metrics of app.py. -/
structure AppState where
  counter : CounterState
  hist : Hist
deriving DecidableEq

/-- Registry state at process start: no counter children, all histogram
cells at zero. -/
def initialState : AppState :=
  { counter := []
    hist := { buckets := upperBounds.map (fun b => (b, 0)), inf := 0, sum := 0 } }

/-- Response of the `/` handler: `jsonify({"ok": True, "latency_seconds": latency})`
with Flask's default status 200. -/
structure IndexResponse where
  ok : Bool
  latency_seconds : ℚ
  status : Nat
deriving DecidableEq

/-- The `/` handler (app.py lines 19-27).  `latency` is the measured elapsed
wall-clock time of the simulated work; the handler observes it in the
histogram, increments the counter child for `mainKey`, and returns it. -/
def index (latency : ℚ) (st : AppState) : AppState × IndexResponse :=
  let st1 : AppState := { st with hist := observe st.hist latency }
  let st2 : AppState := { st1 with counter := incKey st1.counter mainKey }
  (st2, { ok := true, latency_seconds := latency, status := 200 })

/-- The `/healthz` handler (app.py lines 29-31): returns ("ok", 200) and
touches no metric. -/
def healthz (st : AppState) : AppState × (String × Nat) := (st, ("ok", 200))

/-- One line of the text exposition format: metric name, label pairs,
numeric value. -/
structure ExpoLine where
  name : String
  labels : List (String × String)
  value : ℚ
deriving DecidableEq

/-- prometheus_client CONTENT_TYPE_LATEST. -/
def CONTENT_TYPE_LATEST : String := "text/plain; version=0.0.4; charset=utf-8"

/-- Exposition line for one counter child, label values stringified. -/
def counterLineOf (p : CKey × Nat) : ExpoLine :=
  { name := "sample_app_request_total"
    labels := [("endpoint", p.1.1), ("method", p.1.2.1),
               ("http_status", toString p.1.2.2)]
    value := (p.2 : ℚ) }

/-- Exposition lines of the request counter, one per existing child. -/
def counterLines (c : CounterState) : List ExpoLine := c.map counterLineOf

/-- Exposition lines of the latency histogram: cumulative bucket lines, the
+Inf bucket, _count and _sum. -/
def histLines (h : Hist) : List ExpoLine :=
  h.buckets.map (fun p =>
    { name := "sample_app_request_latency_seconds_bucket"
      labels := [("le", toString p.1)]
      value := (cumAt h.buckets p.1 : ℚ) })
  ++ [{ name := "sample_app_request_latency_seconds_bucket"
        labels := [("le", "+Inf")], value := (histTotalCount h : ℚ) },
      { name := "sample_app_request_latency_seconds_count", labels := [],
        value := (histTotalCount h : ℚ) },
      { name := "sample_app_request_latency_seconds_sum", labels := [],
        value := h.sum }]

/-- generate_latest: serialize the registry state at the instant of the
call (custom metrics; process/runtime gauges carry no claim-relevant
state and are omitted from the embedding). -/
def generateLatest (st : AppState) : List ExpoLine :=
  counterLines st.counter ++ histLines st.hist

/-- Response of the `/metrics` handler. -/
structure MetricsResponse where
  body : List ExpoLine
  status : Nat
  contentType : String
deriving DecidableEq

/-- The `/metrics` handler (app.py lines 33-36):
`return generate_latest(), 200, {"Content-Type": CONTENT_TYPE_LATEST}`. -/
def metrics (st : AppState) : AppState × MetricsResponse :=
  (st, { body := generateLatest st, status := 200,
         contentType := CONTENT_TYPE_LATEST })

/-- A request served by the process: one of the three routed paths. -/
inductive Event where
  | work (latency : ℚ)
  | live
  | scrape
deriving DecidableEq

/-- Registry-state effect of serving one request. -/
def step (st : AppState) : Event → AppState
  | .work l => (index l st).1
  | .live => (healthz st).1
  | .scrape => (metrics st).1

/-- Registry state after serving a trace of requests since process start. -/
def run (tr : List Event) : AppState := tr.foldl step initialState

/-- Number of requests served in a trace. -/
def requestsServed (tr : List Event) : Nat := tr.length

/-- Number of work-simulation (`/`) requests in a trace. -/
def workCount : List Event → Nat
  | [] => 0
  | .work _ :: rest => workCount rest + 1
  | _ :: rest => workCount rest

/-- One atomic registry operation, as synchronized inside prometheus_client:
a histogram observation or a counter increment. -/
inductive Op where
  | observeOp (l : ℚ)
  | incOp (k : CKey)
deriving DecidableEq

/-- Effect of one atomic registry operation on the registry. -/
def applyOp (st : AppState) : Op → AppState
  | .observeOp l => { st with hist := observe st.hist l }
  | .incOp k => { st with counter := incKey st.counter k }

/-- Effect of a sequence of atomic registry operations. -/
def applyOps (ops : List Op) (st : AppState) : AppState := ops.foldl applyOp st

/-- The registry operations one `/` request performs, in program order
(app.py lines 25-26): observe, then increment. -/
def indexOps (l : ℚ) : List Op := [Op.observeOp l, Op.incOp mainKey]

/-- Number of counter-increment operations in an operation sequence. -/
def incOpCount : List Op → Nat
  | [] => 0
  | .incOp _ :: rest => incOpCount rest + 1
  | _ :: rest => incOpCount rest

/-- Number of histogram-observe operations in an operation sequence. -/
def obsOpCount : List Op → Nat
  | [] => 0
  | .observeOp _ :: rest => obsOpCount rest + 1
  | _ :: rest => obsOpCount rest

/-- `Merge as bs cs`: `cs` is an interleaving of `as` and `bs` that keeps
the internal order of each. -/
inductive Merge : List Op → List Op → List Op → Prop where
  | nil : Merge [] [] []
  | left : ∀ a as bs cs, Merge as bs cs → Merge (a :: as) bs (a :: cs)
  | right : ∀ b as bs cs, Merge as bs cs → Merge as (b :: bs) (b :: cs)

/-- `IsSchedule ss σ`: `σ` is an interleaving of all the per-request
operation sequences in `ss` (each kept in its program order), i.e. one
possible order in which concurrent handlers reach the registry. -/
def IsSchedule : List (List Op) → List Op → Prop
  | [], σ => σ = []
  | s :: ss, σ => ∃ τ, IsSchedule ss τ ∧ Merge s τ σ

/-! ### Lemmas about the counter -/

theorem counterValue_incKey_self (c : CounterState) (k : CKey) :
    counterValue (incKey c k) k = counterValue c k + 1 := by
  induction c with
  | nil => simp [incKey, counterValue]
  | cons p rest ih =>
    obtain ⟨k0, v⟩ := p
    by_cases h : k0 = k
    · subst h; simp [incKey, counterValue]
    · simp [incKey, counterValue, h, ih]

theorem counterValue_incKey_other (c : CounterState) (k k' : CKey)
    (hk : k' ≠ k) : counterValue (incKey c k) k' = counterValue c k' := by
  induction c with
  | nil => simp [incKey, counterValue, Ne.symm hk]
  | cons p rest ih =>
    obtain ⟨k0, v⟩ := p
    by_cases h : k0 = k
    · subst h; simp [incKey, counterValue, Ne.symm hk]
    · simp [incKey, counterValue, h, ih]

theorem counterTotal_incKey (c : CounterState) (k : CKey) :
    counterTotal (incKey c k) = counterTotal c + 1 := by
  induction c with
  | nil => simp [incKey, counterTotal]
  | cons p rest ih =>
    obtain ⟨k0, v⟩ := p
    by_cases h : k0 = k
    · subst h; simp [incKey, counterTotal]; omega
    · simp [incKey, counterTotal, h] at ih ⊢; omega

/-! ### Lemmas about the histogram -/

theorem bump_snd_sum (bs : List (ℚ × Nat)) (l : ℚ) :
    ((bump bs l).1.map Prod.snd).sum
      = (bs.map Prod.snd).sum + (if (bump bs l).2 then 1 else 0) := by
  induction bs with
  | nil => simp [bump]
  | cons p rest ih =>
    obtain ⟨b0, c⟩ := p
    by_cases h : l ≤ b0
    · simp [bump, h]; omega
    · simp only [bump, if_neg h, List.map_cons, List.sum_cons]
      rw [ih]
      cases hb : (bump rest l).2
      all_goals simp only [hb, if_true, if_false, Bool.false_eq_true]
      all_goals omega

theorem histTotalCount_observe (h : Hist) (l : ℚ) :
    histTotalCount (observe h l) = histTotalCount h + 1 := by
  simp only [histTotalCount, observe]
  rw [bump_snd_sum]
  cases hb : (bump h.buckets l).2 <;> simp [hb] <;> omega

/-! ### Lemmas about traces -/

theorem workCount_map_work (lats : List ℚ) :
    workCount (lats.map Event.work) = lats.length := by
  induction lats with
  | nil => simp [workCount]
  | cons l rest ih => simp [workCount, ih]

theorem counterValue_foldl (tr : List Event) (st : AppState) :
    counterValue (tr.foldl step st).counter mainKey
      = counterValue st.counter mainKey + workCount tr := by
  induction tr generalizing st with
  | nil => simp [workCount]
  | cons e rest ih =>
    cases e with
    | work l =>
      rw [List.foldl_cons, ih]
      have hstep : counterValue (step st (Event.work l)).counter mainKey
          = counterValue st.counter mainKey + 1 := by
        simp only [step, index]
        exact counterValue_incKey_self _ _
      rw [hstep]; simp [workCount]; omega
    | live => rw [List.foldl_cons, ih]; simp [step, healthz, workCount]
    | scrape => rw [List.foldl_cons, ih]; simp [step, metrics, workCount]

theorem counterTotal_foldl (tr : List Event) (st : AppState) :
    counterTotal (tr.foldl step st).counter
      = counterTotal st.counter + workCount tr := by
  induction tr generalizing st with
  | nil => simp [workCount]
  | cons e rest ih =>
    cases e with
    | work l =>
      rw [List.foldl_cons, ih]
      have hstep : counterTotal (step st (Event.work l)).counter
          = counterTotal st.counter + 1 := by
        simp only [step, index]
        exact counterTotal_incKey _ _
      rw [hstep]; simp [workCount]; omega
    | live => rw [List.foldl_cons, ih]; simp [step, healthz, workCount]
    | scrape => rw [List.foldl_cons, ih]; simp [step, metrics, workCount]

theorem histTotalCount_foldl (tr : List Event) (st : AppState) :
    histTotalCount (tr.foldl step st).hist
      = histTotalCount st.hist + workCount tr := by
  induction tr generalizing st with
  | nil => simp [workCount]
  | cons e rest ih =>
    cases e with
    | work l =>
      rw [List.foldl_cons, ih]
      have hstep : histTotalCount (step st (Event.work l)).hist
          = histTotalCount st.hist + 1 := by
        simp only [step, index]
        exact histTotalCount_observe _ _
      rw [hstep]; simp [workCount]; omega
    | live => rw [List.foldl_cons, ih]; simp [step, healthz, workCount]
    | scrape => rw [List.foldl_cons, ih]; simp [step, metrics, workCount]

/-! ### Claim theorems -/

/-- C1: after N invocations of the work-simulation endpoint the counter
child for (endpoint="/", method="GET", status=200) equals N; each invocation
adds 1 to exactly that child (all other children unchanged) and performs
exactly two metric mutations: one histogram observation (total sample count
+1) and one counter increment (counter total +1). -/
theorem spec_C1_counter_per_request (lats : List ℚ) (st : AppState) (l : ℚ)
    (k : CKey) (hk : k ≠ mainKey) :
    counterValue (run (lats.map Event.work)).counter mainKey = lats.length
    ∧ counterValue (index l st).1.counter mainKey
        = counterValue st.counter mainKey + 1
    ∧ counterValue (index l st).1.counter k = counterValue st.counter k
    ∧ counterTotal (index l st).1.counter = counterTotal st.counter + 1
    ∧ histTotalCount (index l st).1.hist = histTotalCount st.hist + 1 := by
  refine ⟨?_, ?_, ?_, ?_, ?_⟩
  · rw [run, counterValue_foldl, workCount_map_work]
    simp [initialState, counterValue]
  · simp only [index]; exact counterValue_incKey_self _ _
  · simp only [index]; exact counterValue_incKey_other _ _ _ hk
  · simp only [index]; exact counterTotal_incKey _ _
  · simp only [index]; exact histTotalCount_observe _ _

/-- C1 witness: concrete instance with one work request and the foreign
key ("/other", "GET", 200). -/
theorem spec_C1_counter_per_request_witness :
    (("/other", "GET", 200) : CKey) ≠ mainKey
    ∧ (counterValue (run ([(1:ℚ)/10].map Event.work)).counter mainKey = 1
    ∧ counterValue (index ((1:ℚ)/10) initialState).1.counter mainKey
        = counterValue initialState.counter mainKey + 1
    ∧ counterValue (index ((1:ℚ)/10) initialState).1.counter
        ("/other", "GET", 200)
        = counterValue initialState.counter ("/other", "GET", 200)
    ∧ counterTotal (index ((1:ℚ)/10) initialState).1.counter
        = counterTotal initialState.counter + 1
    ∧ histTotalCount (index ((1:ℚ)/10) initialState).1.hist
        = histTotalCount initialState.hist + 1) :=
  ⟨by decide, spec_C1_counter_per_request [(1:ℚ)/10] initialState ((1:ℚ)/10)
    ("/other", "GET", 200) (by decide)⟩

/-- C2: the work-simulation endpoint always responds with status 200 and
ok = true, and when the measured latency decomposes as a sleep duration d in
[0.005, 0.2] plus a nonnegative measurement overhead o, the returned
latency_seconds lies in [0.005, 0.2 + o]; the handler is a total function
(it cannot fail). -/
theorem spec_C2_index_response (d o : ℚ) (st : AppState)
    (h1 : 5/1000 ≤ d) (h2 : d ≤ 2/10) (h3 : 0 ≤ o) :
    (index (d + o) st).2.ok = true
    ∧ (index (d + o) st).2.status = 200
    ∧ 5/1000 ≤ (index (d + o) st).2.latency_seconds
    ∧ (index (d + o) st).2.latency_seconds ≤ 2/10 + o
    ∧ ∀ (l : ℚ) (s : AppState),
        (index l s).2.ok = true ∧ (index l s).2.status = 200 := by
  refine ⟨rfl, rfl, ?_, ?_, fun l s => ⟨rfl, rfl⟩⟩
  · show 5/1000 ≤ d + o
    linarith
  · show d + o ≤ 2/10 + o
    linarith

/-- C2 witness: sleep duration 0.1, overhead 0. -/
theorem spec_C2_index_response_witness :
    ((5:ℚ)/1000 ≤ 1/10 ∧ (1:ℚ)/10 ≤ 2/10 ∧ (0:ℚ) ≤ 0)
    ∧ ((index ((1:ℚ)/10 + 0) initialState).2.ok = true
    ∧ (index ((1:ℚ)/10 + 0) initialState).2.status = 200
    ∧ 5/1000 ≤ (index ((1:ℚ)/10 + 0) initialState).2.latency_seconds
    ∧ (index ((1:ℚ)/10 + 0) initialState).2.latency_seconds ≤ 2/10 + 0
    ∧ ∀ (l : ℚ) (s : AppState),
        (index l s).2.ok = true ∧ (index l s).2.status = 200) :=
  ⟨⟨by norm_num, by norm_num, le_refl 0⟩,
   spec_C2_index_response (1/10) 0 initialState (by norm_num) (by norm_num)
     (le_refl 0)⟩

/-- C5: the liveness endpoint always responds ("ok", 200), and iterating it
any number of times leaves the registry state, hence the counter and
histogram totals, unchanged. -/
theorem spec_C5_healthz_pure (st : AppState) (M : Nat) :
    (healthz st).2 = ("ok", 200)
    ∧ (fun s => (healthz s).1)^[M] st = st
    ∧ counterTotal ((fun s => (healthz s).1)^[M] st).counter
        = counterTotal st.counter
    ∧ histTotalCount ((fun s => (healthz s).1)^[M] st).hist
        = histTotalCount st.hist := by
  have hid : (fun s : AppState => (healthz s).1) = id := rfl
  have hiter : (fun s : AppState => (healthz s).1)^[M] st = st := by
    rw [hid, Function.iterate_id, id]
  exact ⟨rfl, hiter, by rw [hiter], by rw [hiter]⟩

/-- C9: the latency_seconds value in the response of the work-simulation
endpoint is exactly the value observed into the histogram by the same
invocation: the histogram update is observe at the returned value, and the
running sum grows by the returned value. -/
theorem spec_C9_observed_equals_returned (l : ℚ) (st : AppState) :
    (index l st).2.latency_seconds = l
    ∧ (index l st).1.hist = observe st.hist ((index l st).2.latency_seconds)
    ∧ (index l st).1.hist.sum
        = st.hist.sum + (index l st).2.latency_seconds :=
  ⟨rfl, rfl, rfl⟩

/-! ### Counter shape invariant -/

theorem counterShape_foldl (tr : List Event) (st : AppState)
    (h : st.counter = [] ∨ ∃ n, st.counter = [(mainKey, n)]) :
    (tr.foldl step st).counter = []
      ∨ ∃ n, (tr.foldl step st).counter = [(mainKey, n)] := by
  induction tr generalizing st with
  | nil => exact h
  | cons e rest ih =>
    rw [List.foldl_cons]
    apply ih
    cases e with
    | work l =>
      simp only [step, index]
      rcases h with h | ⟨n, h⟩
      · rw [h]; exact Or.inr ⟨1, rfl⟩
      · rw [h]; exact Or.inr ⟨n + 1, by simp [incKey]⟩
    | live => exact h
    | scrape => exact h

/-- C4 counterexample: the claim relates the totals to the number of ALL
requests served, but after serving one liveness request the process has
served 1 request while both totals are still 0. -/
theorem spec_C4_counterexample :
    requestsServed [Event.live] = 1
    ∧ counterTotal (run [Event.live]).counter = 0
    ∧ histTotalCount (run [Event.live]).hist = 0
    ∧ counterTotal (run [Event.live]).counter
        ≠ requestsServed [Event.live] := by
  refine ⟨rfl, rfl, rfl, ?_⟩
  intro h
  simp [run, step, healthz, initialState, counterTotal, requestsServed] at h

/-- C4 amended: at every reachable state, the counter total over all label
combinations and the histogram total sample count each equal the number of
work-simulation requests served since process start (liveness and
metrics-exposition requests are served without being counted), and no step
ever decreases either total (no reset). -/
theorem spec_C4_totals_equal_work_requests (tr : List Event) (st : AppState)
    (e : Event) :
    counterTotal (run tr).counter = workCount tr
    ∧ histTotalCount (run tr).hist = workCount tr
    ∧ counterTotal st.counter ≤ counterTotal (step st e).counter
    ∧ histTotalCount st.hist ≤ histTotalCount (step st e).hist := by
  refine ⟨?_, ?_, ?_, ?_⟩
  · rw [run, counterTotal_foldl]
    simp [initialState, counterTotal]
  · rw [run, histTotalCount_foldl]
    have h0 : histTotalCount initialState.hist = 0 := rfl
    omega
  · cases e with
    | work l =>
      simp only [step, index]
      rw [counterTotal_incKey]
      omega
    | live => exact le_refl _
    | scrape => exact le_refl _
  · cases e with
    | work l =>
      simp only [step, index]
      rw [histTotalCount_observe]
      omega
    | live => exact le_refl _
    | scrape => exact le_refl _

/-- C10: at every reachable state the request counter holds at most one
label combination, and any key present is (endpoint="/", method="GET",
http_status=200). -/
theorem spec_C10_counter_single_key (tr : List Event) (k : CKey)
    (hk : k ∈ (run tr).counter.map Prod.fst) :
    k = mainKey ∧ (run tr).counter.length ≤ 1 := by
  have h := counterShape_foldl tr initialState (Or.inl rfl)
  rw [run] at hk ⊢
  rcases h with h | ⟨n, h⟩
  · rw [h] at hk
    simp at hk
  · rw [h] at hk ⊢
    simp at hk ⊢
    exact hk

/-- C10 witness: after one work request the only key is mainKey and the
counter has exactly one child. -/
theorem spec_C10_counter_single_key_witness :
    mainKey ∈ (run [Event.work ((1:ℚ)/10)]).counter.map Prod.fst
    ∧ (mainKey = mainKey
        ∧ (run [Event.work ((1:ℚ)/10)]).counter.length ≤ 1) :=
  ⟨by decide, spec_C10_counter_single_key [Event.work ((1:ℚ)/10)] mainKey
    (by decide)⟩

/-- C6: the metrics-exposition handler returns status 200 with the
prometheus text content-type, its body is the serialization of the registry
state at the instant of the call (every existing counter child appears as
its exposition line), and the registry state is left unchanged. -/
theorem spec_C6_metrics_snapshot (st : AppState) (p : CKey × Nat)
    (hp : p ∈ st.counter) :
    (metrics st).1 = st
    ∧ (metrics st).2.status = 200
    ∧ (metrics st).2.contentType = "text/plain; version=0.0.4; charset=utf-8"
    ∧ (metrics st).2.body = generateLatest st
    ∧ counterLineOf p ∈ (metrics st).2.body := by
  refine ⟨rfl, rfl, rfl, rfl, ?_⟩
  simp only [metrics, generateLatest, counterLines]
  exact List.mem_append_left _ (List.mem_map_of_mem counterLineOf hp)

/-- C6 witness: state after one work request, whose single counter child is
(mainKey, 1). -/
theorem spec_C6_metrics_snapshot_witness :
    (mainKey, 1) ∈ (index ((1:ℚ)/10) initialState).1.counter
    ∧ ((metrics (index ((1:ℚ)/10) initialState).1).1
          = (index ((1:ℚ)/10) initialState).1
    ∧ (metrics (index ((1:ℚ)/10) initialState).1).2.status = 200
    ∧ (metrics (index ((1:ℚ)/10) initialState).1).2.contentType
          = "text/plain; version=0.0.4; charset=utf-8"
    ∧ (metrics (index ((1:ℚ)/10) initialState).1).2.body
          = generateLatest (index ((1:ℚ)/10) initialState).1
    ∧ counterLineOf (mainKey, 1)
          ∈ (metrics (index ((1:ℚ)/10) initialState).1).2.body) :=
  ⟨by decide, spec_C6_metrics_snapshot (index ((1:ℚ)/10) initialState).1
    (mainKey, 1) (by decide)⟩

/-- C7: starting from a fresh registry, one call to the work-simulation
endpoint followed by one call to the metrics-exposition endpoint yields a
body containing the request-count line with labels endpoint="/",
method="GET", http_status="200" and value 1, whatever the measured
latency was. -/
theorem spec_C7_scenario_line (l : ℚ) :
    ({ name := "sample_app_request_total",
       labels := [("endpoint", "/"), ("method", "GET"), ("http_status", "200")],
       value := 1 } : ExpoLine)
      ∈ (metrics (index l initialState).1).2.body := by
  have hc : (index l initialState).1.counter = [(mainKey, 1)] := rfl
  simp only [metrics, generateLatest, counterLines, hc]
  apply List.mem_append_left
  have hline : ({ name := "sample_app_request_total", labels := [("endpoint", "/"), ("method", "GET"), ("http_status", "200")], value := 1 } : ExpoLine) = counterLineOf (mainKey, 1) := by decide
  rw [hline]
  simp

/-! ### Cumulative bucket lemmas -/

theorem cumAt_cons (b0 : ℚ) (c : Nat) (rest : List (ℚ × Nat)) (b : ℚ) :
    cumAt ((b0, c) :: rest) b = (if b0 ≤ b then c else 0) + cumAt rest b := by
  by_cases h : b0 ≤ b <;> simp [cumAt, h]

theorem cumAt_bump_of_lt (bs : List (ℚ × Nat)) (l b : ℚ) (hlb : b < l) :
    cumAt (bump bs l).1 b = cumAt bs b := by
  induction bs with
  | nil => simp [bump]
  | cons p rest ih =>
    obtain ⟨b0, c⟩ := p
    by_cases h : l ≤ b0
    · have hb0 : ¬ b0 ≤ b := by
        intro hle
        exact absurd (le_trans h hle) (not_le.mpr hlb)
      have hbump : (bump ((b0, c) :: rest) l).1 = (b0, c + 1) :: rest := by
        simp [bump, h]
      rw [hbump, cumAt_cons, cumAt_cons]
      simp [hb0]
    · have hbump : (bump ((b0, c) :: rest) l).1
          = (b0, c) :: (bump rest l).1 := by
        simp [bump, h]
      rw [hbump, cumAt_cons, cumAt_cons, ih]

theorem cumAt_bump (bs : List (ℚ × Nat)) (l b : ℚ)
    (hs : List.Sorted (· ≤ ·) (bs.map Prod.fst))
    (hb : b ∈ bs.map Prod.fst) :
    cumAt (bump bs l).1 b = cumAt bs b + (if l ≤ b then 1 else 0) := by
  induction bs with
  | nil => simp at hb
  | cons p rest ih =>
    obtain ⟨b0, c⟩ := p
    rw [List.map_cons, List.sorted_cons] at hs
    rw [List.map_cons, List.mem_cons] at hb
    by_cases hl : l ≤ b0
    · have hb0b : b0 ≤ b := by
        rcases hb with hb | hb
        · rw [hb]
        · exact hs.1 b hb
      have hbump : (bump ((b0, c) :: rest) l).1 = (b0, c + 1) :: rest := by
        simp [bump, hl]
      rw [hbump, cumAt_cons, cumAt_cons]
      have hlb : l ≤ b := le_trans hl hb0b
      simp [hb0b, hlb]
      omega
    · have hbump : (bump ((b0, c) :: rest) l).1
          = (b0, c) :: (bump rest l).1 := by
        simp [bump, hl]
      rw [hbump, cumAt_cons, cumAt_cons]
      rcases hb with hb | hb
      · subst hb
        have hbl : b < l := not_le.mp hl
        rw [cumAt_bump_of_lt rest l b hbl]
        simp [hl]
      · rw [ih hs.2 hb, Nat.add_assoc]

/-- C3: the histogram bucket upper bounds are exactly
{5,10,25,50,100,250,500,1000,2000,5000} milliseconds expressed in seconds,
each request handled by the work-simulation endpoint adds exactly one
sample to the distribution, and the cumulative count of a bucket grows by 1
exactly when its bound is at least the sample. -/
theorem spec_C3_histogram_buckets (st : AppState) (l b : ℚ)
    (hbounds : bucketBounds st.hist = upperBounds) (hb : b ∈ upperBounds) :
    upperBounds
        = [5, 10, 25, 50, 100, 250, 500, 1000, 2000, 5000].map
            (fun m => m / 1000)
    ∧ histTotalCount (index l st).1.hist = histTotalCount st.hist + 1
    ∧ cumAt (index l st).1.hist.buckets b
        = cumAt st.hist.buckets b + (if l ≤ b then 1 else 0) := by
  refine ⟨by norm_num [upperBounds], ?_, ?_⟩
  · simp only [index]
    exact histTotalCount_observe _ _
  · have hfst : st.hist.buckets.map Prod.fst = upperBounds := hbounds
    have hsorted : List.Sorted (· ≤ ·) (st.hist.buckets.map Prod.fst) := by
      rw [hfst]
      norm_num [upperBounds, List.sorted_cons]
    have hmem : b ∈ st.hist.buckets.map Prod.fst := by
      rw [hfst]
      exact hb
    simp only [index]
    exact cumAt_bump st.hist.buckets l b hsorted hmem

/-- C3 witness: fresh histogram, sample 0.001, bucket bound 0.005. -/
theorem spec_C3_histogram_buckets_witness :
    bucketBounds initialState.hist = upperBounds
    ∧ (5:ℚ)/1000 ∈ upperBounds
    ∧ (upperBounds
        = [5, 10, 25, 50, 100, 250, 500, 1000, 2000, 5000].map
            (fun m => m / 1000)
    ∧ histTotalCount (index ((1:ℚ)/1000) initialState).1.hist
        = histTotalCount initialState.hist + 1
    ∧ cumAt (index ((1:ℚ)/1000) initialState).1.hist.buckets ((5:ℚ)/1000)
        = cumAt initialState.hist.buckets ((5:ℚ)/1000)
          + (if (1:ℚ)/1000 ≤ (5:ℚ)/1000 then 1 else 0)) :=
  ⟨rfl, by norm_num [upperBounds],
   spec_C3_histogram_buckets initialState ((1:ℚ)/1000) ((5:ℚ)/1000)
     rfl (by norm_num [upperBounds])⟩

/-! ### Schedule lemmas for the concurrency claim -/

theorem merge_incOpCount (as bs cs : List Op) (h : Merge as bs cs) :
    incOpCount cs = incOpCount as + incOpCount bs := by
  induction h with
  | nil => rfl
  | left a as bs cs h ih =>
    cases a with
    | observeOp l => simpa [incOpCount] using ih
    | incOp k => simp [incOpCount, ih]; omega
  | right b as bs cs h ih =>
    cases b with
    | observeOp l => simpa [incOpCount] using ih
    | incOp k => simp [incOpCount, ih]; omega

theorem merge_obsOpCount (as bs cs : List Op) (h : Merge as bs cs) :
    obsOpCount cs = obsOpCount as + obsOpCount bs := by
  induction h with
  | nil => rfl
  | left a as bs cs h ih =>
    cases a with
    | observeOp l => simp [obsOpCount, ih]; omega
    | incOp k => simpa [obsOpCount] using ih
  | right b as bs cs h ih =>
    cases b with
    | observeOp l => simp [obsOpCount, ih]; omega
    | incOp k => simpa [obsOpCount] using ih

theorem schedule_incOpCount (ss : List (List Op)) (σ : List Op)
    (h : IsSchedule ss σ) : incOpCount σ = (ss.map incOpCount).sum := by
  induction ss generalizing σ with
  | nil =>
    rw [show σ = [] from h]
    rfl
  | cons s ss ih =>
    obtain ⟨τ, hτ, hm⟩ := h
    rw [merge_incOpCount s τ σ hm, ih τ hτ]
    simp

theorem schedule_obsOpCount (ss : List (List Op)) (σ : List Op)
    (h : IsSchedule ss σ) : obsOpCount σ = (ss.map obsOpCount).sum := by
  induction ss generalizing σ with
  | nil =>
    rw [show σ = [] from h]
    rfl
  | cons s ss ih =>
    obtain ⟨τ, hτ, hm⟩ := h
    rw [merge_obsOpCount s τ σ hm, ih τ hτ]
    simp

theorem counterTotal_applyOps (ops : List Op) (st : AppState) :
    counterTotal (applyOps ops st).counter
      = counterTotal st.counter + incOpCount ops := by
  induction ops generalizing st with
  | nil => simp [applyOps, incOpCount]
  | cons o rest ih =>
    have hfold : applyOps (o :: rest) st = applyOps rest (applyOp st o) := rfl
    rw [hfold, ih]
    cases o with
    | observeOp l => simp [applyOp, incOpCount]
    | incOp k =>
      simp only [applyOp, incOpCount]
      rw [counterTotal_incKey]
      omega

theorem histTotalCount_applyOps (ops : List Op) (st : AppState) :
    histTotalCount (applyOps ops st).hist
      = histTotalCount st.hist + obsOpCount ops := by
  induction ops generalizing st with
  | nil => simp [applyOps, obsOpCount]
  | cons o rest ih =>
    have hfold : applyOps (o :: rest) st = applyOps rest (applyOp st o) := rfl
    rw [hfold, ih]
    cases o with
    | observeOp l =>
      simp only [applyOp, obsOpCount]
      rw [histTotalCount_observe]
      omega
    | incOp k => simp [applyOp, obsOpCount]

theorem merge_append (as bs : List Op) : Merge as bs (as ++ bs) := by
  induction as with
  | nil =>
    induction bs with
    | nil => exact Merge.nil
    | cons b bs ih => exact Merge.right b [] bs bs ih
  | cons a as ih => exact Merge.left a as bs (as ++ bs) ih

theorem isSchedule_join (ss : List (List Op)) : IsSchedule ss ss.flatten := by
  induction ss with
  | nil => rfl
  | cons s ss ih => exact ⟨ss.flatten, ih, merge_append s ss.flatten⟩

theorem sum_map_incOpCount (lats : List ℚ) :
    ((lats.map indexOps).map incOpCount).sum = lats.length := by
  induction lats with
  | nil => rfl
  | cons l rest ih =>
    simp only [List.map_cons, List.sum_cons, List.length_cons]
    have h1 : incOpCount (indexOps l) = 1 := rfl
    rw [h1, ih]
    omega

theorem sum_map_obsOpCount (lats : List ℚ) :
    ((lats.map indexOps).map obsOpCount).sum = lats.length := by
  induction lats with
  | nil => rfl
  | cons l rest ih =>
    simp only [List.map_cons, List.sum_cons, List.length_cons]
    have h1 : obsOpCount (indexOps l) = 1 := rfl
    rw [h1, ih]
    omega

/-- C8: registry operations are modeled as atomic steps (the registry's
internal synchronization); for any 100 work requests and ANY interleaving
of their per-request operation sequences, the final counter total is
exactly 100 and the histogram records exactly 100 samples: no update is
lost under concurrency. -/
theorem spec_C8_no_lost_updates (lats : List ℚ) (σ : List Op)
    (hlen : lats.length = 100)
    (hσ : IsSchedule (lats.map indexOps) σ) :
    counterTotal (applyOps σ initialState).counter = 100
    ∧ histTotalCount (applyOps σ initialState).hist = 100 := by
  constructor
  · rw [counterTotal_applyOps, schedule_incOpCount _ _ hσ,
        sum_map_incOpCount, hlen]
    simp [initialState, counterTotal]
  · rw [histTotalCount_applyOps, schedule_obsOpCount _ _ hσ,
        sum_map_obsOpCount, hlen]
    have h0 : histTotalCount initialState.hist = 0 := rfl
    omega

/-- C8 witness: 100 requests of latency 0.01 scheduled sequentially. -/
theorem spec_C8_no_lost_updates_witness :
    (List.replicate 100 ((1:ℚ)/100)).length = 100
    ∧ IsSchedule ((List.replicate 100 ((1:ℚ)/100)).map indexOps)
        (((List.replicate 100 ((1:ℚ)/100)).map indexOps).flatten)
    ∧ (counterTotal (applyOps
          (((List.replicate 100 ((1:ℚ)/100)).map indexOps).flatten)
          initialState).counter = 100
    ∧ histTotalCount (applyOps
          (((List.replicate 100 ((1:ℚ)/100)).map indexOps).flatten)
          initialState).hist = 100) :=
  ⟨by simp, isSchedule_join _,
   spec_C8_no_lost_updates _ _ (by simp) (isSchedule_join _)⟩

end PromDemo
